import Mathlib

/-!
Verification development for the sec-edgar date-range filing planner.

This file embeds, as executable Lean definitions, the parts of the
repository that the verified properties are about:

* the proleptic Gregorian calendar arithmetic used by Python's
  `datetime.date` (ordinals, day successor, quarter starts);
* `ComboFilings._recompute` from `secedgar/core/combo.py` (the range
  planner that splits `[start_date, end_date]` into quarter triples and
  day entries);
* `DailyFilings._get_idx_formatted_date` from `secedgar/filings/daily.py`;
* the idx-file line scanning and `FilingEntry` construction in
  `IndexFilings.get_filings_dict` from `secedgar/filings/_index.py`,
  including a small regular-expression matcher for the literal pattern
  the code uses;
* the memoization behaviour of `IndexFilings.get_urls` together with the
  date key of `DailyFilings`;
* the extension-priority lookup of `IndexFilings._move_to_dest`;
* the temporary-directory lifecycle of `IndexFilings.save_filings` in
  bulk mode;
* a small model of Python runtime evaluation sufficient to evaluate the
  boundary predicates `lambda x: date(x['date_filed']) >= self.start_date`
  that `_recompute` installs on quarter triples.
-/

namespace SecEdgar

/-! ## Calendar arithmetic (model of Python `datetime.date`)

Python's `datetime` module computes date ordinals with
`_days_before_year(year) = y*365 + y//4 - y//100 + y//400` (for
`y = year - 1`), a per-month cumulative table adjusted for leap years,
and `_ymd2ord(year, month, day)` as the sum of those with the day.
Dates compare by ordinal (equivalently lexicographically on the triple),
and `date - date` is the ordinal difference. The definitions below
mirror that algorithm on `Nat` (Python years are 1..9999). -/

/-- Python `_is_leap(year)`: `year % 4 == 0 and (year % 100 != 0 or year % 400 == 0)`. -/
def isLeap (year : Nat) : Bool :=
  year % 4 == 0 && (year % 100 != 0 || year % 400 == 0)

/-- Python `_DAYS_IN_MONTH` (with the leap adjustment for February). -/
def daysInMonth (year month : Nat) : Nat :=
  if month = 2 then (if isLeap year then 29 else 28)
  else [31, 31, 28, 31, 30, 31, 30, 31, 31, 30, 31, 30, 31].getD month 31

/-- Python `_DAYS_BEFORE_MONTH[month]` plus the leap adjustment
(`+1` when `month > 2` in a leap year). -/
def daysBeforeMonth (year month : Nat) : Nat :=
  [0, 0, 31, 59, 90, 120, 151, 181, 212, 243, 273, 304, 334].getD month 334
    + (if 2 < month && isLeap year then 1 else 0)

/-- Python `_days_before_year(year)`: days before January 1st of `year`. -/
def daysBeforeYear (year : Nat) : Nat :=
  (year - 1) * 365 + (year - 1) / 4 - (year - 1) / 100 + (year - 1) / 400

/-- A calendar date, as stored by Python's `datetime.date` (a
year/month/day triple). -/
structure Date where
  year : Nat
  month : Nat
  day : Nat
  deriving DecidableEq, Repr

/-- Python `_ymd2ord(year, month, day)` = `date.toordinal()`. -/
def ymd2ord (d : Date) : Nat :=
  daysBeforeYear d.year + daysBeforeMonth d.year d.month + d.day

/-- The validity invariant Python's `date` constructor enforces. -/
def ValidDate (d : Date) : Prop :=
  1 ≤ d.year ∧ 1 ≤ d.month ∧ d.month ≤ 12 ∧ 1 ≤ d.day ∧ d.day ≤ daysInMonth d.year d.month

instance (d : Date) : Decidable (ValidDate d) := by
  unfold ValidDate; infer_instance

/-- `d + timedelta(days=1)` on a valid date (Python computes this via
ordinals; on valid triples it is the evident successor). -/
def nextDay (d : Date) : Date :=
  if d.day < daysInMonth d.year d.month then ⟨d.year, d.month, d.day + 1⟩
  else if d.month < 12 then ⟨d.year, d.month + 1, 1⟩
  else ⟨d.year + 1, 1, 1⟩

/-- The `k` consecutive dates starting at `d` (the planner's inner
`while` loops append exactly such runs). -/
def dayRange (d : Date) : Nat → List Date
  | 0 => []
  | k + 1 => d :: dayRange (nextDay d) k

/-! ## Quarter helpers (`secedgar.utils` / `IndexFilings.get_quarter`) -/

/-- `get_quarter(date) = (date.month - 1) // 3 + 1`
(`IndexFilings.get_quarter` in `secedgar/filings/_index.py`). -/
def get_quarter (d : Date) : Nat :=
  (d.month - 1) / 3 + 1

/-- Modelled from the spec: `secedgar.utils.get_month` is not under
`src/`; the spec defines a quarter boundary as the first calendar day of
Jan/Apr/Jul/Oct, so quarter `q` starts at month `3*(q-1)+1`. -/
def get_month (quarter : Nat) : Nat :=
  3 * (quarter - 1) + 1

/-- Modelled from the spec: `secedgar.utils.add_quarter` is not under
`src/`; the planner advances to the chronologically next quarter,
wrapping the year after Q4. -/
def add_quarter (year quarter : Nat) : Nat × Nat :=
  if quarter < 4 then (year, quarter + 1) else (year + 1, 1)

/-! ## The range planner: `ComboFilings._recompute` (`secedgar/core/combo.py`)

`_recompute` walks `current_date` from `start_date` while
`current_date <= end_date`, appending `(year, quarter, predicate)`
triples to `quarterly_date_list` and single dates to `daily_date_list`.
The three predicates the source installs are the closed lambdas
`lambda x: True`, `lambda x: date(x['date_filed']) >= self.start_date`
and `lambda x: date(x['date_filed']) <= self.end_date`; we record which
one was installed with a tag (their runtime behaviour is modelled
separately, see `evalQPred`). -/

/-- Tag identifying which of the three lambda predicates
`ComboFilings._recompute` attached to a quarter triple. -/
inductive QPred where
  /-- `lambda x: True` -/
  | acceptAll : QPred
  /-- `lambda x: date(x['date_filed']) >= self.start_date` -/
  | geStart : QPred
  /-- `lambda x: date(x['date_filed']) <= self.end_date` -/
  | leEnd : QPred
  deriving DecidableEq, Repr

/-- One entry of `quarterly_date_list`: `(year, quarter, predicate)`. -/
abbrev QTriple := Nat × Nat × QPred

/-- `date(current_year, get_month(current_quarter), 1)`: the first day
of the quarter containing `current_date`. -/
def quarterStart (c : Date) : Date :=
  ⟨c.year, get_month (get_quarter c), 1⟩

/-- `date(next_year, get_month(next_quarter), 1)` for
`next_year, next_quarter = add_quarter(current_year, current_quarter)`. -/
def nextQuarterStart (c : Date) : Date :=
  ⟨(add_quarter c.year (get_quarter c)).1, get_month (add_quarter c.year (get_quarter c)).2, 1⟩

/-- `days_till_next_quarter = (next_start_quarter_date - current_date).days`. -/
def daysTillNextQuarter (c : Date) : Nat :=
  ymd2ord (nextQuarterStart c) - ymd2ord c

/-- `days_till_end = (end_date - current_date).days`. -/
def daysTillEnd (endD c : Date) : Nat :=
  ymd2ord endD - ymd2ord c

/-- The loop of `ComboFilings._recompute`, as structural recursion on a
fuel bound (each iteration strictly advances `current_date`, so
`recompute` supplies provably sufficient fuel; see
`recomputeAux_fuel_stable`). Returns
`(quarterly_date_list, daily_date_list)`. -/
def recomputeAux (endD : Date) (bp : Nat) : Nat → Date → List QTriple × List Date
  | 0, _ => ([], [])
  | fuel + 1, current =>
    -- while current_date <= self.end_date
    if ymd2ord current ≤ ymd2ord endD then
      if daysTillNextQuarter current ≤ daysTillEnd endD current then
        if quarterStart current = current then
          -- full quarter: append (year, quarter, lambda x: True), jump to boundary
          ((current.year, get_quarter current, QPred.acceptAll)
              :: (recomputeAux endD bp fuel (nextQuarterStart current)).1,
            (recomputeAux endD bp fuel (nextQuarterStart current)).2)
        else if bp < daysTillNextQuarter current then
          -- append (year, quarter, lambda x: date(x['date_filed']) >= self.start_date)
          ((current.year, get_quarter current, QPred.geStart)
              :: (recomputeAux endD bp fuel (nextQuarterStart current)).1,
            (recomputeAux endD bp fuel (nextQuarterStart current)).2)
        else
          -- while current_date < next_start_quarter_date: append day; advance one day
          ((recomputeAux endD bp fuel (nextQuarterStart current)).1,
            dayRange current (daysTillNextQuarter current)
              ++ (recomputeAux endD bp fuel (nextQuarterStart current)).2)
      else
        if bp < daysTillEnd endD current then
          if daysTillNextQuarter current - 1 = daysTillEnd endD current then
            -- append (year, quarter, lambda x: True); jump past end_date
            ([(current.year, get_quarter current, QPred.acceptAll)], [])
          else
            -- append (year, quarter, lambda x: date(x['date_filed']) <= self.end_date);
            -- current_date = self.end_date (the loop then runs once more at end_date)
            ((current.year, get_quarter current, QPred.leEnd)
                :: (recomputeAux endD bp fuel endD).1,
              (recomputeAux endD bp fuel endD).2)
        else
          -- while current_date <= end_date: append day; advance one day
          ([], dayRange current (daysTillEnd endD current + 1))
    else ([], [])

/-- `ComboFilings._recompute`: the `(quarterly_date_list, daily_date_list)`
plan computed for `start_date = s`, `end_date = e`, `balancing_point = bp`. -/
def recompute (s e : Date) (bp : Nat) : List QTriple × List Date :=
  recomputeAux e bp (ymd2ord e + 2 - ymd2ord s) s

/-- Errors a Python call in the modelled fragment can raise
(`queryError` stands for `EDGARQueryError`). -/
inductive PyErr where
  | typeError : PyErr
  | valueError : PyErr
  | indexError : PyErr
  | queryError : PyErr
  deriving DecidableEq, Repr

deriving instance DecidableEq for Except

/-- The state `ComboFilings.__init__` establishes. -/
structure ComboState where
  startDate : Date
  endDate : Date
  balancingPoint : Nat
  plan : List QTriple × List Date
  deriving DecidableEq, Repr

/-- `ComboFilings.__init__` (`secedgar/core/combo.py` lines 56-80): it
assigns the arguments, constructs the two sub-sources and calls
`_recompute`; the body contains no `raise` and no comparison of
`start_date` with `end_date`. The sub-constructors are modelled from the
spec (`secedgar.core.daily` / `secedgar.core.quarterly` are not under
`src/`): per the spec they validate only date *types* and client
settings, so for genuine date arguments they do not raise. The result
type is `Except` so that "raises at construction time" is statable. -/
def comboInit (s e : Date) (bp : Nat) : Except PyErr ComboState :=
  .ok { startDate := s, endDate := e, balancingPoint := bp, plan := recompute s e bp }

/-- Membership of a date in the unfiltered span of quarter `(y, q)`
(the dates whose `get_quarter`/`year` match the triple). -/
def inQuarterSpan (y q : Nat) (d : Date) : Bool :=
  d.year == y && get_quarter d == q

/-- The *intended* boundary semantics of the three predicate lambdas
(what the predicate accepts when read as a filter on the filing date),
used to state coverage properties of the plan. -/
def qpredAccepts (p : QPred) (s e d : Date) : Bool :=
  match p with
  | .acceptAll => true
  | .geStart => ymd2ord s ≤ ymd2ord d
  | .leEnd => ymd2ord d ≤ ymd2ord e

/-! ## `DailyFilings._get_idx_formatted_date` (`secedgar/filings/daily.py`)

The source formats with `strftime("%m%d%y")`, `strftime("%y%m%d")` or
`strftime("%Y%m%d")` depending on the date; `%m`/`%d`/`%y` zero-pad to
two digits (`%y` is `year % 100`), `%Y` zero-pads the year to four. -/

/-- Two-digit zero-padded decimal (`%m`, `%d`, `%y`). -/
def pad2 (n : Nat) : String :=
  if n < 10 then "0" ++ Nat.repr n else Nat.repr n

/-- Four-digit zero-padded decimal (`%Y`). -/
def pad4 (n : Nat) : String :=
  if n < 10 then "000" ++ Nat.repr n
  else if n < 100 then "00" ++ Nat.repr n
  else if n < 1000 then "0" ++ Nat.repr n
  else Nat.repr n

/-- `date.strftime("%m%d%y")`. -/
def strf_mmddyy (d : Date) : String :=
  pad2 d.month ++ pad2 d.day ++ pad2 (d.year % 100)

/-- `date.strftime("%y%m%d")`. -/
def strf_yymmdd (d : Date) : String :=
  pad2 (d.year % 100) ++ pad2 d.month ++ pad2 d.day

/-- `date.strftime("%Y%m%d")`. -/
def strf_yyyymmdd (d : Date) : String :=
  pad4 d.year ++ pad2 d.month ++ pad2 d.day

/-- `DailyFilings._get_idx_formatted_date` (`secedgar/filings/daily.py`
lines 60-74): `if self._date.year < 1995: "%m%d%y"`;
`elif self._date < datetime.datetime(1998, 3, 31): "%y%m%d"` (a strict
comparison against midnight of 1998-03-31); `else: "%Y%m%d"`. -/
def idx_formatted_date (d : Date) : String :=
  if d.year < 1995 then strf_mmddyy d
  else if ymd2ord d < ymd2ord ⟨1998, 3, 31⟩ then strf_yymmdd d
  else strf_yyyymmdd d

/-! ## Idx-file scanning: `IndexFilings.get_filings_dict`
(`secedgar/filings/_index.py` lines 128-158)

The source runs
`re.findall(r'^[0-9]+[|].+[|].+[|][0-9\-]+[|].+$', idx_file, re.MULTILINE)`
and, for each matching line, splits on `"|"` and builds a `FilingEntry`
namedtuple with `path = "Archives/" + fields[-1]`, keyed by `cik` in an
insertion-ordered dict. We embed the regular expression with a small
backtracking matcher over the pattern's token sequence. -/

/-- One token of the regular expression: a literal character or a
one-or-more character class (`[0-9]+`, `.+`, `[0-9\-]+`). -/
inductive RTok where
  | lit : Char → RTok
  | plus : (Char → Bool) → RTok

/-- Backtracking matcher for a full match of a token sequence against a
character list (`X+` consumes one character and then either moves on or
stays greedy, exactly the alternatives a regex engine tries). -/
def rmatch (toks : List RTok) : List Char → Bool
  | [] => toks.isEmpty
  | c :: cs =>
    match toks with
    | [] => false
    | .lit l :: rest => (c == l) && rmatch rest cs
    | .plus cls :: rest => cls c && (rmatch rest cs || rmatch (.plus cls :: rest) cs)

/-- `[0-9]`. -/
def isDigitChar (c : Char) : Bool :=
  '0' ≤ c && c ≤ '9'

/-- `.` (any character except a newline; with `re.MULTILINE` the
anchored pattern matches within single lines). -/
def isDotChar (c : Char) : Bool :=
  c != '\n'

/-- `[0-9\-]`. -/
def isDateFieldChar (c : Char) : Bool :=
  isDigitChar c || c == '-'

/-- The token sequence of `^[0-9]+[|].+[|].+[|][0-9\-]+[|].+$`. -/
def idxLineToks : List RTok :=
  [.plus isDigitChar, .lit '|', .plus isDotChar, .lit '|', .plus isDotChar,
    .lit '|', .plus isDateFieldChar, .lit '|', .plus isDotChar]

/-- A line qualifies as a data row iff the full-line regex matches. -/
def qualifiesIdxLine (line : List Char) : Bool :=
  rmatch idxLineToks line

/-- Python `str.split(sep)` for a single-character separator. -/
def splitOnChar (sep : Char) : List Char → List (List Char)
  | [] => [[]]
  | c :: cs =>
    match splitOnChar sep cs with
    | [] => [[c]]
    | h :: t => if c = sep then [] :: h :: t else (c :: h) :: t

/-- Inverse of `splitOnChar`: join with the separator. -/
def joinWithChar (sep : Char) : List (List Char) → List Char
  | [] => []
  | [p] => p
  | p :: ps => p ++ sep :: joinWithChar sep ps

/-- The lines of the idx file text (`re.MULTILINE` makes `^`/`$` anchor
at newline boundaries, and `.` never crosses a newline, so `findall`
returns exactly the matching lines). -/
def idxLines (text : List Char) : List (List Char) :=
  splitOnChar '\n' text

/-- The lines `re.findall` returns, in file order. -/
def qualifyingIdxLines (text : List Char) : List (List Char) :=
  (idxLines text).filter qualifiesIdxLine

/-- The `FilingEntry` namedtuple:
`["cik", "company_name", "form_type", "date_filed", "file_name", "path"]`. -/
structure FilingEntry where
  cik : String
  company_name : String
  form_type : String
  date_filed : String
  file_name : String
  path : String
  deriving DecidableEq, Repr

/-- `FilingEntry(*fields, path="Archives/" + fields[-1])` for a
five-field split. -/
def mkFilingEntry (f0 f1 f2 f3 f4 : List Char) : FilingEntry :=
  { cik := ⟨f0⟩, company_name := ⟨f1⟩, form_type := ⟨f2⟩, date_filed := ⟨f3⟩,
    file_name := ⟨f4⟩, path := "Archives/" ++ ⟨f4⟩ }

/-- The insertion-ordered dict `cik -> [FilingEntry, ...]`: appending to
an existing key's list, else adding the key at the end (Python dict
insertion order). -/
def FilingsDict := List (String × List FilingEntry)

/-- `self._filings_dict[entry.cik].append(entry)` /
`self._filings_dict[entry.cik] = [entry]`. -/
def dictInsert : List (String × List FilingEntry) → FilingEntry →
    List (String × List FilingEntry)
  | [], e => [(e.cik, [e])]
  | (k, es) :: rest, e =>
    if k = e.cik then (k, es ++ [e]) :: rest else (k, es) :: dictInsert rest e

/-- Processing of the matched lines: split on `|`; Python then calls
`FilingEntry(*fields, path=path)`, which raises `TypeError` unless the
split has exactly five fields (the namedtuple takes six arguments);
apply `entry_filter` if one is set; insert into the dict. -/
def parseIdxEntries (filt : Option (FilingEntry → Bool)) :
    List (List Char) → List (String × List FilingEntry) →
      Except PyErr (List (String × List FilingEntry))
  | [], acc => .ok acc
  | line :: rest, acc =>
    match splitOnChar '|' line with
    | [f0, f1, f2, f3, f4] =>
      let entry := mkFilingEntry f0 f1 f2 f3 f4
      let keep := match filt with
        | none => true
        | some f => f entry
      parseIdxEntries filt rest (if keep then dictInsert acc entry else acc)
    | _ => .error .typeError

/-- `IndexFilings.get_filings_dict` applied to the idx file text: scan
for matching lines and build the `cik -> entries` dict. -/
def get_filings_dict (text : String) (filt : Option (FilingEntry → Bool)) :
    Except PyErr (List (String × List FilingEntry)) :=
  parseIdxEntries filt (qualifyingIdxLines text.data) []

/-- Total number of entries stored in the dict. -/
def dictTotal (d : List (String × List FilingEntry)) : Nat :=
  (d.map (fun kv => kv.2.length)).sum

/-- The five-field shape the specification describes:
`<digits>|<text>|<text>|<date>|<text>` — splitting the (newline-free)
line on `|` yields exactly five fields, the first nonempty and
all-digit, the fourth nonempty and date-shaped, the others nonempty.
This definition follows the spec's words, to be compared against the
source's regex. -/
def fiveFieldShapeSpec (line : List Char) : Bool :=
  line.all (fun c => c != '\n') &&
  match splitOnChar '|' line with
  | [f0, f1, f2, f3, f4] =>
    !f0.isEmpty && f0.all isDigitChar && !f1.isEmpty && !f2.isEmpty &&
      !f3.isEmpty && f3.all isDateFieldChar && !f4.isEmpty
  | _ => false

/-! ## IndexSource state: memoization in `IndexFilings` + `DailyFilings`

`IndexFilings.__init__` sets `_listings_directory = None`,
`_master_idx_file = None`, `_filings_dict = None`, `_urls = {}`.
`get_urls` recomputes only when `not self._urls`; `get_filings_dict`
only when `self._filings_dict is None`; `_get_master_idx_file` and
`_get_listings_directory` only when their cache is `None`. `DailyFilings`
keeps its identity key in `_date` and defines no setter for it; the
range planner mutates it by attribute assignment
(`self.daily._date = date` in `secedgar/filings/combo.py`). Network
responses are supplied by an environment (`FetchEnv`) so the chain is
executable. -/

/-- Response texts the client would return: `listingText` for a
directory-listing path, `fileText` for an idx-file URL. -/
structure FetchEnv where
  listingText : String → String
  fileText : String → String

/-- The memoized state of one `DailyFilings` instance. -/
structure DailyState where
  date : Date
  listingsDirectory : Option String
  masterIdxFile : Option String
  filingsDict : Option (List (String × List FilingEntry))
  urls : List (String × List String)
  entryFilter : Option (FilingEntry → Bool)

/-- `DailyFilings.__init__(date, ...)` together with
`IndexFilings.__init__`. -/
def dailyInit (d : Date) (filt : Option (FilingEntry → Bool)) : DailyState :=
  { date := d, listingsDirectory := none, masterIdxFile := none,
    filingsDict := none, urls := [], entryFilter := filt }

/-- `self.daily._date = date` (`secedgar/filings/combo.py`): a bare
attribute assignment; `DailyFilings` defines no `date` setter and no
cached attribute is touched. -/
def set_date (s : DailyState) (d : Date) : DailyState :=
  { s with date := d }

/-- `DailyFilings.path`:
`"Archives/edgar/daily-index/{year}/QTR{num}/"`. -/
def daily_path (s : DailyState) : String :=
  "Archives/edgar/daily-index/" ++ Nat.repr s.date.year ++ "/QTR"
    ++ Nat.repr (get_quarter s.date) ++ "/"

/-- `DailyFilings.idx_filename`: `"master.{date}.idx"`. -/
def daily_idx_filename (s : DailyState) : String :=
  "master." ++ idx_formatted_date s.date ++ ".idx"

/-- `NetworkClient._prepare_query(path)`: `_BASE + path` with
`_BASE = "http://www.sec.gov/"` (`secedgar/client/network_client.py`). -/
def prepare_query (path : String) : String :=
  "http://www.sec.gov/" ++ path

/-- Whether `needle` starts `hay` (auxiliary for substring search). -/
def charsStart : List Char → List Char → Bool
  | [], _ => true
  | _ :: _, [] => false
  | a :: as, b :: bs => a == b && charsStart as bs

/-- Substring search over character lists. -/
def charsContain (needle : List Char) : List Char → Bool
  | [] => needle.isEmpty
  | c :: cs => charsStart needle (c :: cs) || charsContain needle cs

/-- Python `needle in hay` on strings: substring containment. -/
def strContains (hay needle : String) : Bool :=
  charsContain needle.data hay.data

/-- `IndexFilings._get_listings_directory`: memoized fetch of the
directory-listing response text. -/
def state_get_listings (env : FetchEnv) (s : DailyState) : String × DailyState :=
  match s.listingsDirectory with
  | some t => (t, s)
  | none =>
    let t := env.listingText (daily_path s)
    (t, { s with listingsDirectory := some t })

/-- `IndexFilings._get_master_idx_file`: memoized; checks
`self.idx_filename in self._get_listings_directory().text` and fetches
the idx file, else raises `EDGARQueryError`. -/
def state_get_master_idx (env : FetchEnv) (s : DailyState) :
    Except PyErr (String × DailyState) :=
  match s.masterIdxFile with
  | some t => .ok (t, s)
  | none =>
    let ls := state_get_listings env s
    if strContains ls.1 (daily_idx_filename s) then
      let t := env.fileText (daily_path s ++ daily_idx_filename s)
      .ok (t, { ls.2 with masterIdxFile := some t })
    else .error .queryError

/-- `IndexFilings.get_filings_dict` on the instance: memoized on
`_filings_dict`. -/
def state_get_filings_dict (env : FetchEnv) (s : DailyState) :
    Except PyErr (List (String × List FilingEntry) × DailyState) :=
  match s.filingsDict with
  | some d => .ok (d, s)
  | none =>
    match state_get_master_idx env s with
    | .error e => .error e
    | .ok (txt, s1) =>
      match parseIdxEntries s.entryFilter (qualifyingIdxLines txt.data) [] with
      | .error e => .error e
      | .ok d => .ok (d, { s1 with filingsDict := some d })

/-- `IndexFilings.get_urls` (`secedgar/filings/_index.py` lines
160-172): `if not self._urls:` compute from the filings dict by
prefixing each entry's path, else return the memoized mapping. -/
def state_get_urls (env : FetchEnv) (s : DailyState) :
    Except PyErr (List (String × List String) × DailyState) :=
  if s.urls.isEmpty then
    match state_get_filings_dict env s with
    | .error e => .error e
    | .ok (d, s1) =>
      let u := d.map (fun kv => (kv.1, kv.2.map (fun en => prepare_query en.path)))
      .ok (u, { s1 with urls := u })
  else .ok (s.urls, s)

/-! ## Bulk-archive extension fallback: `IndexFilings._move_to_dest`
(`secedgar/filings/_index.py` lines 262-281) -/

/-- Modelled from the spec: `AbstractFiling.get_accession_number`
(`secedgar/filings/_base.py`) is not under `src/`; per the spec the
accession number is derived from the URL's final path segment. -/
def get_accession_number (url : String) : String :=
  ⟨(splitOnChar '/' url.data).getLastD []⟩

/-- `link.split('/')[-2]`: the CIK segment of the link. -/
def linkCik (link : String) : String :=
  let parts := splitOnChar '/' link.data
  ⟨parts.getD (parts.length - 2) []⟩

/-- `filepath = link_accession.split('.')[0]`. -/
def accessionRoot (link_accession : String) : String :=
  ⟨(splitOnChar '.' link_accession.data).headD []⟩

/-- `possible_endings = ('nc', 'corr04', 'corr03', 'corr02', 'corr01')`. -/
def possible_endings : List String :=
  ["nc", "corr04", "corr03", "corr02", "corr01"]

/-- The extension-fallback lookup of `_move_to_dest`: try the endings in
priority order, return the first `filepath + '.' + ending` present among
the extracted files (`break` after the first hit), `none` when no
variant exists. -/
def resolveExtracted (extracted_files : List String) (link_accession : String) :
    Option String :=
  (possible_endings.find?
      (fun e => extracted_files.contains (accessionRoot link_accession ++ "." ++ e))).map
    (fun e => accessionRoot link_accession ++ "." ++ e)

/-- The move jobs `_move_to_dest` enqueues, one per link whose extracted
file is found: `(formatted_file, full_dir, old_path)`. Links with no
matching extracted variant enqueue nothing (no error). `dirFmt`/`fileFmt`
stand for `dir_pattern.format(cik=...)` / `file_pattern.format(accession_number=...)`. -/
def moveJobs (dirFmt fileFmt : String → String) (extractDir directory : String)
    (links : List String) (extracted_files : List String) :
    List (String × String × String) :=
  links.filterMap (fun link =>
    (resolveExtracted extracted_files (get_accession_number link)).map
      (fun found =>
        (fileFmt (get_accession_number link),
          directory ++ "/" ++ dirFmt (linkCik link),
          extractDir ++ "/" ++ found)))

/-! ## Bulk save: `IndexFilings.save_filings` with `download_all=True`
(`secedgar/filings/_index.py` lines 283-334)

The call computes a collision-free temp directory name, creates it,
unzips the archives into it, moves files out and finally calls
`shutil.rmtree`. Unzipping and moving perform I/O whose success is
abstracted by two oracle booleans; a `False` oracle stands for the step
raising an exception, which propagates out of `save_filings`
(the body has no `try`/`finally`). -/

/-- The candidate names the collision loop tries:
`'temp'`, then `'temp0'`, `'temp1'`, ... -/
def tempCandidates (existing : List String) : List String :=
  "temp" :: (List.range (existing.length + 1)).map (fun i => "temp" ++ Nat.repr i)

/-- The collision-avoiding temp-directory chooser (the loop
`while os.path.exists(extract_directory): 'temp{i}'; i += 1`); there are
more candidates than existing names, so the `getD` fallback is never
reached for injectively-named candidates. -/
def chooseTempDir (existing : List String) : String :=
  ((tempCandidates existing).find? (fun n => !existing.contains n)).getD "temp"

/-- Distinguish which step of the bulk save failed. -/
inductive BulkErr where
  | unzipErr : BulkErr
  | moveErr : BulkErr
  deriving DecidableEq, Repr

/-- `save_filings(..., download_all=True)` reduced to its directory
lifecycle: choose the temp name, `make_path` it, `_unzip`,
`_move_to_dest`, `shutil.rmtree`. Returns the outcome together with the
list of directories existing afterwards. -/
def save_filings_bulk (existing : List String) (unzipOk moveOk : Bool) :
    Except BulkErr Unit × List String :=
  let temp := chooseTempDir existing
  let dirs1 := existing ++ [temp]
  if !unzipOk then (.error .unzipErr, dirs1)
  else if !moveOk then (.error .moveErr, dirs1)
  else (.ok (), dirs1.erase temp)

/-- A concrete network environment used to exhibit the memoization
behaviour of `get_urls` across an identity-key change: the quarter
listing advertises the idx files of both 2018-12-31 and 2019-01-02, and
each idx file holds one entry. -/
def memoEnv : FetchEnv where
  listingText := fun _ => "master.20181231.idx master.20190102.idx"
  fileText := fun u =>
    if u = "Archives/edgar/daily-index/2018/QTR4/master.20181231.idx" then
      "0000111|ALPHA|10-K|2018-12-31|edgar/data/111/a.txt"
    else
      "0000222|BETA|8-K|2019-01-02|edgar/data/222/b.txt"

/-! ## Runtime behaviour of the boundary predicates
(`secedgar/core/combo.py` lines 104-108 and 119-123)

`_recompute` attaches `lambda x: date(x['date_filed']) >= self.start_date`
(resp. `<= self.end_date`). During `get_urls`/`save` these run against
`FilingEntry` namedtuples inside `get_filings_dict`. We model the small
fragment of Python evaluation those bodies exercise. -/

/-- A Python value of the fragment. -/
inductive PyVal where
  | str : String → PyVal
  | int : Int → PyVal
  | bool : Bool → PyVal
  | pydate : Date → PyVal
  | entry : FilingEntry → PyVal
  deriving Repr

/-- Python subscription `x[i]` for the values of the fragment:
namedtuples inherit tuple indexing, so an integer index selects a field
by position and any other index type raises
`TypeError: tuple indices must be integers or slices, not str`. -/
def pyGetItem (x idx : PyVal) : Except PyErr PyVal :=
  match x, idx with
  | .entry e, .int i =>
    if i = 0 then .ok (.str e.cik)
    else if i = 1 then .ok (.str e.company_name)
    else if i = 2 then .ok (.str e.form_type)
    else if i = 3 then .ok (.str e.date_filed)
    else if i = 4 then .ok (.str e.file_name)
    else if i = 5 then .ok (.str e.path)
    else .error .indexError
  | .entry _, _ => .error .typeError
  | _, _ => .error .typeError

/-- `datetime.date` called with one positional argument: the constructor
requires `year`, `month` and `day`, so a single-argument call raises
`TypeError` regardless of the argument. -/
def dateCall1 (_ : PyVal) : Except PyErr PyVal :=
  .error .typeError

/-- Python `a >= b` where `b` is a `date`: defined only against another
`date`; any other left operand raises `TypeError`. -/
def pyGeDate (v : PyVal) (d : Date) : Except PyErr PyVal :=
  match v with
  | .pydate d' => .ok (.bool (ymd2ord d ≤ ymd2ord d'))
  | _ => .error .typeError

/-- Python `a <= b` where `b` is a `date`. -/
def pyLeDate (v : PyVal) (d : Date) : Except PyErr PyVal :=
  match v with
  | .pydate d' => .ok (.bool (ymd2ord d' ≤ ymd2ord d))
  | _ => .error .typeError

/-- Evaluation of the predicate lambda a quarter triple carries, at
argument `x`, with the planner's `start_date`/`end_date` in scope:
`lambda x: True` returns `True`;
`lambda x: date(x['date_filed']) >= self.start_date` first subscripts
`x` with the string `'date_filed'`, then calls `date(...)` on the
result, then compares; likewise for `<= self.end_date`. -/
def evalQPred (p : QPred) (startD endD : Date) (x : PyVal) : Except PyErr PyVal :=
  match p with
  | .acceptAll => .ok (.bool true)
  | .geStart => do
    let v ← pyGetItem x (.str "date_filed")
    let dv ← dateCall1 v
    pyGeDate dv startD
  | .leEnd => do
    let v ← pyGetItem x (.str "date_filed")
    let dv ← dateCall1 v
    pyLeDate dv endD

/-! ## Calendar lemmas -/

theorem dayRange_length (d : Date) (k : Nat) : (dayRange d k).length = k := by
  induction k generalizing d with
  | zero => rfl
  | succ k ih => simp [dayRange, ih]

set_option maxHeartbeats 1600000 in
theorem daysBeforeYear_succ (y : Nat) (hy : 1 ≤ y) :
    daysBeforeYear (y + 1) = daysBeforeYear y + 365 + (if isLeap y then 1 else 0) := by
  obtain ⟨m, rfl⟩ : ∃ m, y = m + 1 := ⟨y - 1, by omega⟩
  have h2 : isLeap (m + 1) = true ↔
      ((m + 1) % 4 = 0 ∧ ((m + 1) % 100 ≠ 0 ∨ (m + 1) % 400 = 0)) := by
    simp [isLeap]
  unfold daysBeforeYear
  simp only [Nat.add_sub_cancel]
  by_cases hl : isLeap (m + 1) = true
  · rw [if_pos hl]; rw [h2] at hl; omega
  · rw [if_neg hl]; rw [h2] at hl; push_neg at hl
    by_cases h4 : (m + 1) % 4 = 0
    · obtain ⟨h100, h400⟩ := hl h4
      omega
    · omega

theorem daysBeforeYear_mono {y1 y2 : Nat} (h : y1 ≤ y2) :
    daysBeforeYear y1 ≤ daysBeforeYear y2 := by
  induction y2 with
  | zero =>
    have hz : y1 = 0 := Nat.le_zero.mp h
    subst hz; exact Nat.le_refl _
  | succ n ih =>
    rcases Nat.lt_or_ge y1 (n + 1) with hlt | hge
    · have hn : y1 ≤ n := by omega
      rcases Nat.eq_zero_or_pos n with rfl | hp
      · interval_cases y1
        simp [daysBeforeYear]
      · calc daysBeforeYear y1 ≤ daysBeforeYear n := ih hn
          _ ≤ daysBeforeYear (n + 1) := by rw [daysBeforeYear_succ n hp]; omega
    · have : y1 = n + 1 := by omega
      subst this; exact Nat.le_refl _

theorem daysBeforeMonth_add_le (y m : Nat) (h1 : 1 ≤ m) (h12 : m ≤ 12) (d : Nat)
    (hd : d ≤ daysInMonth y m) :
    daysBeforeMonth y m + d ≤ 365 + (if isLeap y then 1 else 0) := by
  interval_cases m <;>
    simp only [daysBeforeMonth, daysInMonth, List.getD] at * <;>
    by_cases hl : isLeap y <;> simp [hl] at * <;> omega

theorem ymd2ord_lower (d : Date) (h : ValidDate d) :
    daysBeforeYear d.year + 1 ≤ ymd2ord d := by
  obtain ⟨_, _, _, h4, _⟩ := h
  unfold ymd2ord
  omega

theorem ymd2ord_upper (d : Date) (h : ValidDate d) :
    ymd2ord d ≤ daysBeforeYear (d.year + 1) := by
  obtain ⟨h1, h2, h3, h4, h5⟩ := h
  rw [daysBeforeYear_succ d.year h1]
  have := daysBeforeMonth_add_le d.year d.month h2 h3 d.day h5
  unfold ymd2ord
  omega

theorem ymd2ord_firstJan (Y : Nat) : ymd2ord ⟨Y, 1, 1⟩ = daysBeforeYear Y + 1 := by
  simp [ymd2ord, daysBeforeMonth]

/-- On valid dates, comparing years is equivalent to comparing ordinals
against January 1st. -/
theorem year_lt_iff_ord_lt (d : Date) (h : ValidDate d) (Y : Nat) :
    d.year < Y ↔ ymd2ord d < ymd2ord ⟨Y, 1, 1⟩ := by
  rw [ymd2ord_firstJan]
  constructor
  · intro hy
    have h1 := ymd2ord_upper d h
    have h2 := daysBeforeYear_mono (show d.year + 1 ≤ Y by omega)
    omega
  · intro ho
    by_contra hc
    have hY : Y ≤ d.year := by omega
    have h1 := ymd2ord_lower d h
    have h2 := daysBeforeYear_mono hY
    omega

theorem daysBeforeMonth_succ (y m : Nat) (h1 : 1 ≤ m) (h12 : m ≤ 11) :
    daysBeforeMonth y (m + 1) = daysBeforeMonth y m + daysInMonth y m := by
  interval_cases m <;>
    by_cases hl : isLeap y <;>
      simp [daysBeforeMonth, daysInMonth, hl]

theorem one_le_daysInMonth (y m : Nat) : 1 ≤ daysInMonth y m := by
  unfold daysInMonth
  split
  · split <;> omega
  · rcases Nat.lt_or_ge m 13 with hm | hm
    · interval_cases m <;> simp
    · rw [List.getD_eq_getElem?_getD, List.getElem?_eq_none (by simp; omega)]
      simp

theorem ymd2ord_nextDay (d : Date) (h : ValidDate d) :
    ymd2ord (nextDay d) = ymd2ord d + 1 := by
  obtain ⟨y, m, day⟩ := d
  unfold ValidDate at h
  dsimp only at h
  obtain ⟨hy, hm1, hm12, hd1, hd2⟩ := h
  unfold nextDay
  try dsimp only
  split_ifs with hlt hm
  · simp only [ymd2ord]
    try dsimp only
    omega
  · simp only [ymd2ord]
    try dsimp only
    rw [daysBeforeMonth_succ y m hm1 (by omega)]
    omega
  · have hm' : m = 12 := by omega
    subst hm'
    simp only [daysInMonth] at hlt hd2
    norm_num at hlt hd2
    have hday : day = 31 := by omega
    subst hday
    simp only [ymd2ord]
    try dsimp only
    rw [daysBeforeYear_succ y hy]
    by_cases hl : isLeap y <;> simp [daysBeforeMonth, hl]

theorem nextDay_valid (d : Date) (h : ValidDate d) : ValidDate (nextDay d) := by
  obtain ⟨y, m, day⟩ := d
  unfold ValidDate at h
  dsimp only at h
  obtain ⟨hy, hm1, hm12, hd1, hd2⟩ := h
  unfold nextDay
  try dsimp only
  split_ifs with hlt hm <;>
    · unfold ValidDate
      try dsimp only
      refine ⟨by omega, by omega, by omega, by omega, ?_⟩
      first
        | omega
        | exact one_le_daysInMonth _ _

set_option maxHeartbeats 1600000 in
/-- Each planner iteration strictly advances `current_date`: the next
quarter start is strictly later than any valid date in the current
quarter. -/
theorem ymd2ord_lt_nextQuarterStart (c : Date) (h : ValidDate c) :
    ymd2ord c < ymd2ord (nextQuarterStart c) := by
  obtain ⟨hy, hm1, hm12, hd1, hd2⟩ := h
  obtain ⟨y, m, day⟩ := c
  simp only at hy hm1 hm12 hd1 hd2
  interval_cases m <;>
    · simp only [nextQuarterStart, get_quarter, add_quarter, get_month, ymd2ord] at *
      norm_num at *
      try rw [daysBeforeYear_succ y hy]
      by_cases hl : isLeap y <;> simp [daysBeforeMonth, daysInMonth, hl] at * <;> try omega

theorem nextQuarterStart_valid (c : Date) (h : ValidDate c) :
    ValidDate (nextQuarterStart c) := by
  obtain ⟨hy, hm1, hm12, hd1, hd2⟩ := h
  obtain ⟨y, m, day⟩ := c
  simp only at hy hm1 hm12 hd1 hd2
  interval_cases m <;>
    · refine ⟨?_, ?_, ?_, ?_, ?_⟩ <;>
        · simp [nextQuarterStart, add_quarter, get_quarter, get_month, daysInMonth]
          try omega

/-! ## Planner lemmas -/

/-- The fuel bound used by `recompute` is irrelevant as long as it is
large enough: the loop visits each `current_date` at most once and each
iteration strictly advances it, so any two sufficient fuels agree. This
justifies expressing the `while` loop of `_recompute` via fuel. -/
theorem recomputeAux_fuel_stable (endD : Date) (bp : Nat) (he : ValidDate endD) :
    ∀ fuel₁ fuel₂ current, ValidDate current →
      ymd2ord endD + 1 - ymd2ord current ≤ fuel₁ →
      ymd2ord endD + 1 - ymd2ord current ≤ fuel₂ →
      recomputeAux endD bp fuel₁ current = recomputeAux endD bp fuel₂ current := by
  intro fuel₁
  induction fuel₁ with
  | zero =>
    intro fuel₂ current _ hf1 _
    have hgt : ¬ ymd2ord current ≤ ymd2ord endD := by omega
    cases fuel₂ with
    | zero => rfl
    | succ g => simp [recomputeAux, hgt]
  | succ f ih =>
    intro fuel₂ current hc hf1 hf2
    cases fuel₂ with
    | zero =>
      have hgt : ¬ ymd2ord current ≤ ymd2ord endD := by omega
      simp [recomputeAux, hgt]
    | succ g =>
      by_cases hg : ymd2ord current ≤ ymd2ord endD
      · have hprog := ymd2ord_lt_nextQuarterStart current hc
        have hnq : recomputeAux endD bp f (nextQuarterStart current)
            = recomputeAux endD bp g (nextQuarterStart current) :=
          ih g (nextQuarterStart current) (nextQuarterStart_valid current hc)
            (by omega) (by omega)
        by_cases h1 : daysTillNextQuarter current ≤ daysTillEnd endD current
        · by_cases h2 : quarterStart current = current
          · simp only [recomputeAux, if_pos hg, if_pos h1, if_pos h2, hnq]
          · by_cases h3 : bp < daysTillNextQuarter current
            · simp only [recomputeAux, if_pos hg, if_pos h1, if_neg h2, if_pos h3, hnq]
            · simp only [recomputeAux, if_pos hg, if_pos h1, if_neg h2, if_neg h3, hnq]
        · by_cases h2 : bp < daysTillEnd endD current
          · by_cases h3 : daysTillNextQuarter current - 1 = daysTillEnd endD current
            · simp only [recomputeAux, if_pos hg, if_neg h1, if_pos h2, if_pos h3]
            · have hcur : ymd2ord current < ymd2ord endD := by
                unfold daysTillEnd at h2; omega
              have hend : recomputeAux endD bp f endD = recomputeAux endD bp g endD :=
                ih g endD he (by omega) (by omega)
              simp only [recomputeAux, if_pos hg, if_neg h1, if_pos h2, if_neg h3, hend]
          · simp only [recomputeAux, if_pos hg, if_neg h1, if_neg h2]
      · simp [recomputeAux, hg]

/-- When the loop re-enters at `current_date = end_date` (after the
`current_date = self.end_date` assignment in the `<= end_date` quarter
branch), it contributes at most one day entry. -/
theorem recomputeAux_daycount_at_end (endD : Date) (bp : Nat) (he : ValidDate endD)
    (fuel : Nat) : (recomputeAux endD bp fuel endD).2.length ≤ 1 := by
  cases fuel with
  | zero => simp [recomputeAux]
  | succ f =>
    have hprog := ymd2ord_lt_nextQuarterStart endD he
    have h1 : ¬ daysTillNextQuarter endD ≤ daysTillEnd endD endD := by
      unfold daysTillNextQuarter daysTillEnd; omega
    have h2 : ¬ bp < daysTillEnd endD endD := by
      unfold daysTillEnd; omega
    have hne : ¬ daysTillNextQuarter endD = 0 := by
      unfold daysTillNextQuarter; omega
    simp [recomputeAux, h1, h2, hne, dayRange_length, daysTillEnd]

/-- Lowering the balancing point can only lose day entries, never gain
them: with less fuel-independent branching towards days, the two runs
visit the same sequence of loop positions and at each position the
smaller threshold emits at most as many day entries. -/
theorem recomputeAux_dayCount_mono (endD : Date) (he : ValidDate endD)
    (b1 b2 : Nat) (hb : b2 ≤ b1) :
    ∀ fuel current, ValidDate current →
      (recomputeAux endD b2 fuel current).2.length
        ≤ (recomputeAux endD b1 fuel current).2.length := by
  intro fuel
  induction fuel with
  | zero => intro current _; simp [recomputeAux]
  | succ f ih =>
    intro current hc
    by_cases hg : ymd2ord current ≤ ymd2ord endD
    · have hvq := nextQuarterStart_valid current hc
      by_cases h1 : daysTillNextQuarter current ≤ daysTillEnd endD current
      · by_cases h2 : quarterStart current = current
        · simpa [recomputeAux, if_pos hg, if_pos h1, if_pos h2] using
            ih (nextQuarterStart current) hvq
        · by_cases hb1 : b1 < daysTillNextQuarter current
          · have hb2 : b2 < daysTillNextQuarter current := Nat.lt_of_le_of_lt hb hb1
            simpa [recomputeAux, if_pos hg, if_pos h1, if_neg h2, if_pos hb1, if_pos hb2]
              using ih (nextQuarterStart current) hvq
          · by_cases hb2 : b2 < daysTillNextQuarter current
            · have := ih (nextQuarterStart current) hvq
              simp only [recomputeAux, if_pos hg, if_pos h1, if_neg h2, if_pos hb2,
                if_neg hb1, List.length_append, dayRange_length]
              omega
            · simp only [recomputeAux, if_pos hg, if_pos h1, if_neg h2, if_neg hb1,
                if_neg hb2, List.length_append, dayRange_length]
              have := ih (nextQuarterStart current) hvq
              omega
      · by_cases hb1 : b1 < daysTillEnd endD current
        · have hb2 : b2 < daysTillEnd endD current := Nat.lt_of_le_of_lt hb hb1
          by_cases h3 : daysTillNextQuarter current - 1 = daysTillEnd endD current
          · simp [recomputeAux, if_pos hg, if_neg h1, if_pos hb1, if_pos hb2, if_pos h3]
          · simpa [recomputeAux, if_pos hg, if_neg h1, if_pos hb1, if_pos hb2, if_neg h3]
              using ih endD he
        · by_cases hb2 : b2 < daysTillEnd endD current
          · by_cases h3 : daysTillNextQuarter current - 1 = daysTillEnd endD current
            · simp [recomputeAux, if_pos hg, if_neg h1, if_neg hb1, if_pos hb2, if_pos h3,
                dayRange_length]
            · have hle := recomputeAux_daycount_at_end endD b2 he f
              simp only [recomputeAux, if_pos hg, if_neg h1, if_neg hb1, if_pos hb2,
                if_neg h3, dayRange_length, List.length_cons]
              omega
          · simp [recomputeAux, if_pos hg, if_neg h1, if_neg hb1, if_neg hb2]
    · simp [recomputeAux, hg]

/-! ## Idx-scan lemmas -/

theorem splitOnChar_ne_nil (sep : Char) (l : List Char) : splitOnChar sep l ≠ [] := by
  cases l with
  | nil => simp [splitOnChar]
  | cons c cs =>
    simp only [splitOnChar]
    cases h : splitOnChar sep cs with
    | nil => simp
    | cons p ps =>
      dsimp only
      by_cases hc : c = sep <;> simp [hc]

theorem joinWithChar_splitOnChar (sep : Char) (l : List Char) :
    joinWithChar sep (splitOnChar sep l) = l := by
  induction l with
  | nil => rfl
  | cons c cs ih =>
    simp only [splitOnChar]
    cases h : splitOnChar sep cs with
    | nil => exact absurd h (splitOnChar_ne_nil sep cs)
    | cons p ps =>
      rw [h] at ih
      dsimp only
      by_cases hc : c = sep
      · subst hc
        rw [if_pos rfl]
        cases ps <;> simp_all [joinWithChar]
      · rw [if_neg hc]
        cases ps with
        | nil => simp_all [joinWithChar]
        | cons q qs => simp_all [joinWithChar]

theorem mem_joinWithChar (sep : Char) (c : Char) :
    ∀ (parts : List (List Char)) (p : List Char), p ∈ parts → c ∈ p →
      c ∈ joinWithChar sep parts := by
  intro parts
  induction parts with
  | nil => intro p hp; simp at hp
  | cons q qs ih =>
    intro p hp hc
    cases qs with
    | nil =>
      simp at hp
      subst hp
      simpa [joinWithChar] using hc
    | cons r rs =>
      rcases List.mem_cons.mp hp with rfl | hmem
      · exact List.mem_append.mpr (Or.inl hc)
      · have := ih p hmem hc
        exact List.mem_append.mpr (Or.inr (List.mem_cons.mpr (Or.inr this)))

theorem mem_of_mem_splitOnChar (sep : Char) (l : List Char) (p : List Char)
    (hp : p ∈ splitOnChar sep l) {c : Char} (hc : c ∈ p) : c ∈ l := by
  have := mem_joinWithChar sep c (splitOnChar sep l) p hp hc
  rwa [joinWithChar_splitOnChar] at this

theorem rmatch_plus_cons (cls : Char → Bool) (ps : List RTok) (x : Char) (xs : List Char) :
    rmatch (.plus cls :: ps) (x :: xs)
      = (cls x && (rmatch ps xs || rmatch (.plus cls :: ps) xs)) := rfl

theorem rmatch_lit_cons (c : Char) (ps : List RTok) (ys : List Char)
    (h : rmatch ps ys = true) : rmatch (.lit c :: ps) (c :: ys) = true := by
  show ((c == c) && rmatch ps ys) = true
  simp [h]

theorem rmatch_plus_append (cls : Char → Bool) (ps : List RTok) :
    ∀ (xs ys : List Char), xs ≠ [] → (∀ c ∈ xs, cls c = true) → rmatch ps ys = true →
      rmatch (.plus cls :: ps) (xs ++ ys) = true := by
  intro xs
  induction xs with
  | nil => intro ys h; exact absurd rfl h
  | cons a as ih =>
    intro ys _ hall hm
    cases as with
    | nil =>
      rw [List.cons_append, List.nil_append, rmatch_plus_cons, hall a (by simp), hm]
      simp
    | cons b bs =>
      have hrec : rmatch (.plus cls :: ps) (b :: (bs ++ ys)) = true := by
        have := ih ys (by simp) (fun c hc => hall c (List.mem_cons.mpr (Or.inr hc))) hm
        rwa [List.cons_append] at this
      rw [List.cons_append, rmatch_plus_cons, hall a (by simp), List.cons_append, hrec]
      simp

theorem fiveFieldShape_destruct (l : List Char) (h : fiveFieldShapeSpec l = true) :
    l.all (fun c => c != '\n') = true ∧
    ∃ f0 f1 f2 f3 f4, splitOnChar '|' l = [f0, f1, f2, f3, f4] ∧
      f0 ≠ [] ∧ (∀ c ∈ f0, isDigitChar c = true) ∧ f1 ≠ [] ∧ f2 ≠ [] ∧ f3 ≠ [] ∧
      (∀ c ∈ f3, isDateFieldChar c = true) ∧ f4 ≠ [] := by
  unfold fiveFieldShapeSpec at h
  rw [Bool.and_eq_true] at h
  obtain ⟨hnl, hm⟩ := h
  refine ⟨hnl, ?_⟩
  rcases hsp : splitOnChar '|' l with - | ⟨f0, - | ⟨f1, - | ⟨f2, - | ⟨f3, - | ⟨f4, - | ⟨f5, t⟩⟩⟩⟩⟩⟩ <;>
    rw [hsp] at hm <;> simp at hm
  obtain ⟨⟨⟨⟨⟨⟨h0ne, h0dig⟩, h1ne⟩, h2ne⟩, h3ne⟩, h3d⟩, h4ne⟩ := hm
  exact ⟨f0, f1, f2, f3, f4, rfl, h0ne, h0dig, h1ne, h2ne, h3ne, h3d, h4ne⟩

/-- The source's regex accepts every line with the spec's five-field
shape. -/
theorem qualifies_of_fiveFieldShape (l : List Char) (h : fiveFieldShapeSpec l = true) :
    qualifiesIdxLine l = true := by
  obtain ⟨hnl, f0, f1, f2, f3, f4, hsp, h0ne, h0dig, h1ne, h2ne, h3ne, h3date, h4ne⟩ :=
    fiveFieldShape_destruct l h
  have hjoin : l = f0 ++ '|' :: (f1 ++ '|' :: (f2 ++ '|' :: (f3 ++ '|' :: f4))) := by
    have hj := joinWithChar_splitOnChar '|' l
    rw [hsp] at hj
    simpa [joinWithChar] using hj.symm
  have hdot : ∀ p, p ∈ ([f0, f1, f2, f3, f4] : List (List Char)) →
      ∀ c ∈ p, isDotChar c = true := by
    intro p hp c hc
    have hpl : p ∈ splitOnChar '|' l := by rw [hsp]; exact hp
    have hcl := mem_of_mem_splitOnChar '|' l p hpl hc
    have := List.all_eq_true.mp hnl c hcl
    simpa [isDotChar] using this
  unfold qualifiesIdxLine idxLineToks
  rw [hjoin]
  refine rmatch_plus_append _ _ f0 _ h0ne h0dig ?_
  refine rmatch_lit_cons _ _ _ ?_
  refine rmatch_plus_append _ _ f1 _ h1ne (hdot f1 (by simp)) ?_
  refine rmatch_lit_cons _ _ _ ?_
  refine rmatch_plus_append _ _ f2 _ h2ne (hdot f2 (by simp)) ?_
  refine rmatch_lit_cons _ _ _ ?_
  refine rmatch_plus_append _ _ f3 _ h3ne h3date ?_
  refine rmatch_lit_cons _ _ _ ?_
  have h4 : rmatch [RTok.plus isDotChar] (f4 ++ []) = true :=
    rmatch_plus_append _ _ f4 [] h4ne (hdot f4 (by simp)) rfl
  simpa using h4

theorem dictTotal_insert (d : List (String × List FilingEntry)) (e : FilingEntry) :
    dictTotal (dictInsert d e) = dictTotal d + 1 := by
  induction d with
  | nil => simp [dictInsert, dictTotal]
  | cons kv rest ih =>
    simp only [dictInsert]
    split
    · simp only [dictTotal, List.map_cons, List.sum_cons, List.length_append,
        List.length_cons, List.length_nil]
      omega
    · simp only [dictTotal, List.map_cons, List.sum_cons] at *
      omega

theorem parseIdxEntries_none_count :
    ∀ (lines : List (List Char)) (acc : List (String × List FilingEntry))
      (d : List (String × List FilingEntry)),
      parseIdxEntries none lines acc = .ok d → dictTotal d = dictTotal acc + lines.length := by
  intro lines
  induction lines with
  | nil =>
    intro acc d h
    simp only [parseIdxEntries] at h
    cases h
    simp
  | cons line rest ih =>
    intro acc d h
    simp only [parseIdxEntries] at h
    split at h
    · rw [if_pos (by trivial)] at h
      have h2 := ih _ d h
      rw [h2, dictTotal_insert]
      simp only [List.length_cons]
      omega
    · cases h

/-- `List.find?` returns the first element satisfying the test:
everything before it in the list fails the test. -/
theorem find?_eq_some_split {α : Type} (p : α → Bool) :
    ∀ (l : List α) (x : α), l.find? p = some x →
      p x = true ∧ ∃ l1 l2, l = l1 ++ x :: l2 ∧ ∀ y ∈ l1, p y = false := by
  intro l
  induction l with
  | nil => intro x h; simp [List.find?] at h
  | cons a as ih =>
    intro x h
    rw [List.find?] at h
    cases hpa : p a with
    | true =>
      rw [hpa] at h
      cases h
      exact ⟨hpa, [], as, rfl, by simp⟩
    | false =>
      rw [hpa] at h
      obtain ⟨hx, l1, l2, rfl, hfail⟩ := ih x h
      refine ⟨hx, a :: l1, l2, rfl, ?_⟩
      intro y hy
      rcases List.mem_cons.mp hy with rfl | hmem
      · exact hpa
      · exact hfail y hmem

/-! ## Verified claims -/

/-- C1: the plan `ComboFilings._recompute` produces does not always tile
`[start_date, end_date]` exactly. At start 2020-01-01, end 2020-02-15,
balancing point 30, the plan is the quarter triple `(2020, 1)` with the
`date_filed <= end_date` predicate together with the single day entry
2020-02-15: the end date lies in the quarter triple's unfiltered span,
the triple's predicate accepts filings dated on it, and it is also a day
entry — covered by both mechanisms. -/
theorem recompute_end_date_double_coverage :
    recompute ⟨2020, 1, 1⟩ ⟨2020, 2, 15⟩ 30
      = ([(2020, 1, QPred.leEnd)], [⟨2020, 2, 15⟩]) ∧
    inQuarterSpan 2020 1 ⟨2020, 2, 15⟩ = true ∧
    qpredAccepts QPred.leEnd ⟨2020, 1, 1⟩ ⟨2020, 2, 15⟩ ⟨2020, 2, 15⟩ = true := by
  decide

/-- C2: `_recompute` at start 2020-01-06, end 2020-01-10, balancing
point 30 yields exactly the five day entries 2020-01-06 .. 2020-01-10
and no quarter triple; at start 2020-01-01, end 2020-03-31 (default
balancing point 30) it yields exactly the one unfiltered quarter triple
`(2020, 1, accept-all)` and no day entries. -/
theorem recompute_concrete_scenarios :
    recompute ⟨2020, 1, 6⟩ ⟨2020, 1, 10⟩ 30
      = ([], [⟨2020, 1, 6⟩, ⟨2020, 1, 7⟩, ⟨2020, 1, 8⟩, ⟨2020, 1, 9⟩, ⟨2020, 1, 10⟩]) ∧
    recompute ⟨2020, 1, 1⟩ ⟨2020, 3, 31⟩ 30
      = ([(2020, 1, QPred.acceptAll)], []) := by
  decide

/-- C3 counterexample: the claim says `formatted_date(1998-03-31)` is
`"980331"`, but `DailyFilings._get_idx_formatted_date` compares with a
strict `<` against 1998-03-31, so that date already formats as
`"19980331"` (which is also what the repository's own test asserts). -/
theorem idx_formatted_date_boundary_counterexample :
    idx_formatted_date ⟨1998, 3, 31⟩ = "19980331" ∧
    idx_formatted_date ⟨1998, 3, 31⟩ ≠ "980331" := by
  decide

/-- C3 (amended): the daily index date formatter has three regimes with
1998-03-30 the last `YYMMDD` date: every valid date before 1995-01-01
formats as `MMDDYY`, every date from 1995-01-01 through 1998-03-30
inclusive as `YYMMDD`, and every date from 1998-03-31 onward as
`YYYYMMDD`; concretely `formatted_date(1994-12-31) = "123194"`,
`formatted_date(1995-01-01) = "950101"`,
`formatted_date(1998-03-30) = "980330"`,
`formatted_date(1998-03-31) = "19980331"` and
`formatted_date(1998-04-01) = "19980401"`. -/
theorem idx_formatted_date_regimes :
    (∀ d : Date, ValidDate d →
      (ymd2ord d < ymd2ord ⟨1995, 1, 1⟩ → idx_formatted_date d = strf_mmddyy d) ∧
      (ymd2ord ⟨1995, 1, 1⟩ ≤ ymd2ord d → ymd2ord d ≤ ymd2ord ⟨1998, 3, 30⟩ →
        idx_formatted_date d = strf_yymmdd d) ∧
      (ymd2ord ⟨1998, 3, 31⟩ ≤ ymd2ord d → idx_formatted_date d = strf_yyyymmdd d)) ∧
    idx_formatted_date ⟨1994, 12, 31⟩ = "123194" ∧
    idx_formatted_date ⟨1995, 1, 1⟩ = "950101" ∧
    idx_formatted_date ⟨1998, 3, 30⟩ = "980330" ∧
    idx_formatted_date ⟨1998, 3, 31⟩ = "19980331" ∧
    idx_formatted_date ⟨1998, 4, 1⟩ = "19980401" := by
  refine ⟨?_, by decide, by decide, by decide, by decide, by decide⟩
  intro d hd
  refine ⟨?_, ?_, ?_⟩
  · intro hlt
    have hy : d.year < 1995 := (year_lt_iff_ord_lt d hd 1995).mpr hlt
    simp [idx_formatted_date, hy]
  · intro hge hle
    have hy : ¬ d.year < 1995 := fun hc => by
      have := (year_lt_iff_ord_lt d hd 1995).mp hc
      omega
    have hlt2 : ymd2ord d < ymd2ord ⟨1998, 3, 31⟩ := by
      have hcmp : ymd2ord (⟨1998, 3, 30⟩ : Date) < ymd2ord ⟨1998, 3, 31⟩ := by decide
      omega
    simp [idx_formatted_date, hy, hlt2]
  · intro hge
    have hy : ¬ d.year < 1995 := fun hc => by
      have h1 := (year_lt_iff_ord_lt d hd 1995).mp hc
      have h2 : ymd2ord (⟨1995, 1, 1⟩ : Date) < ymd2ord ⟨1998, 3, 31⟩ := by decide
      omega
    have hnlt : ¬ ymd2ord d < ymd2ord ⟨1998, 3, 31⟩ := by omega
    simp [idx_formatted_date, hy, hnlt]

/-- C3 witness: the regime theorem applied at the valid date 2020-06-30,
which is on or after 1998-03-31 and therefore formats as `YYYYMMDD`. -/
theorem idx_formatted_date_regimes_witness :
    ValidDate ⟨2020, 6, 30⟩ ∧
    idx_formatted_date ⟨2020, 6, 30⟩ = strf_yyyymmdd ⟨2020, 6, 30⟩ :=
  ⟨by decide, (idx_formatted_date_regimes.1 ⟨2020, 6, 30⟩ (by decide)).2.2 (by decide)⟩

/-- C4 counterexample: constructing `ComboFilings` with
`start_date = 2020-01-02 > end_date = 2020-01-01` does not raise — the
constructor performs no range-order validation and simply stores an
empty plan. -/
theorem comboInit_no_range_validation :
    comboInit ⟨2020, 1, 2⟩ ⟨2020, 1, 1⟩ 30
      = .ok ⟨⟨2020, 1, 2⟩, ⟨2020, 1, 1⟩, 30, ([], [])⟩ := by
  decide

/-- C4 (amended): `ComboFilings.__init__` never raises for any pair of
dates (it contains no comparison of the two dates and no `raise`); when
`start_date > end_date` the recomputed plan is simply empty. -/
theorem comboInit_never_raises :
    ∀ (s e : Date) (bp : Nat),
      comboInit s e bp = .ok ⟨s, e, bp, recompute s e bp⟩ ∧
      (ymd2ord e < ymd2ord s → recompute s e bp = ([], [])) := by
  intro s e bp
  refine ⟨rfl, ?_⟩
  intro h
  unfold recompute
  cases hfuel : ymd2ord e + 2 - ymd2ord s with
  | zero => simp [recomputeAux]
  | succ g =>
    have hgt : ¬ ymd2ord s ≤ ymd2ord e := by omega
    simp [recomputeAux, hgt]

/-- C4 witness: the construction theorem applied at the reversed pair
2020-01-02 / 2020-01-01. -/
theorem comboInit_never_raises_witness :
    comboInit ⟨2020, 1, 2⟩ ⟨2020, 1, 1⟩ 30
      = .ok ⟨⟨2020, 1, 2⟩, ⟨2020, 1, 1⟩, 30, recompute ⟨2020, 1, 2⟩ ⟨2020, 1, 1⟩ 30⟩ ∧
    recompute ⟨2020, 1, 2⟩ ⟨2020, 1, 1⟩ 30 = ([], []) :=
  ⟨(comboInit_never_raises ⟨2020, 1, 2⟩ ⟨2020, 1, 1⟩ 30).1,
    (comboInit_never_raises ⟨2020, 1, 2⟩ ⟨2020, 1, 1⟩ 30).2 (by decide)⟩

/-- C5 counterexample: for the fixed range 2020-02-01 .. 2020-04-30 and
thresholds `b1 = 70 > b2 = 30`, the plan for the smaller balancing
point has 30 day entries while the larger one has 90 — decreasing the
balancing point decreased the day-entry count, refuting the claimed
direction. -/
theorem recompute_dayCount_not_antitone :
    ¬ (recompute ⟨2020, 2, 1⟩ ⟨2020, 4, 30⟩ 70).2.length
        ≤ (recompute ⟨2020, 2, 1⟩ ⟨2020, 4, 30⟩ 30).2.length := by
  decide

/-- C5 (amended): the day-entry count is monotone in the balancing
point in the opposite direction: for valid dates and thresholds
`b1 > b2 >= 0`, decreasing the balancing point never *increases* the
number of day entries — the plan for `b2` has at most as many day
entries as the plan for `b1`. -/
theorem recompute_dayCount_monotone :
    ∀ (s e : Date), ValidDate s → ValidDate e → ∀ (b1 b2 : Nat), b2 < b1 →
      (recompute s e b2).2.length ≤ (recompute s e b1).2.length := by
  intro s e hs he b1 b2 hb
  unfold recompute
  exact recomputeAux_dayCount_mono e he b1 b2 (Nat.le_of_lt hb) _ s hs

/-- C5 witness: the monotonicity theorem applied at the range
2020-02-01 .. 2020-04-30 with thresholds 70 and 30. -/
theorem recompute_dayCount_monotone_witness :
    ValidDate ⟨2020, 2, 1⟩ ∧ ValidDate ⟨2020, 4, 30⟩ ∧
    (recompute ⟨2020, 2, 1⟩ ⟨2020, 4, 30⟩ 30).2.length
      ≤ (recompute ⟨2020, 2, 1⟩ ⟨2020, 4, 30⟩ 70).2.length :=
  ⟨by decide, by decide,
    recompute_dayCount_monotone ⟨2020, 2, 1⟩ ⟨2020, 4, 30⟩ (by decide) (by decide)
      70 30 (by decide)⟩

/-- C6: mutating the `DailyFilings` identity key does *not* invalidate
the memoized state. After a successful `get_urls` for 2018-12-31,
assigning the date 2019-01-02 and calling `get_urls` again returns the
URL mapping memoized under the old key, which differs from what a fresh
instance computes for the new key. -/
theorem set_date_keeps_stale_urls :
    ((state_get_urls memoEnv (dailyInit ⟨2018, 12, 31⟩ none)).toOption.bind
        (fun r => (state_get_urls memoEnv (set_date r.2 ⟨2019, 1, 2⟩)).toOption)).map
          Prod.fst
      = some [("0000111", ["http://www.sec.gov/Archives/edgar/data/111/a.txt"])] ∧
    (state_get_urls memoEnv (dailyInit ⟨2019, 1, 2⟩ none)).toOption.map Prod.fst
      = some [("0000222", ["http://www.sec.gov/Archives/edgar/data/222/b.txt"])] ∧
    ([("0000111", ["http://www.sec.gov/Archives/edgar/data/111/a.txt"])]
        : List (String × List String))
      ≠ [("0000222", ["http://www.sec.gov/Archives/edgar/data/222/b.txt"])] := by
  decide

/-- C7 counterexample: the line `"1|a|b|2020|x|y"` has six pipe-separated
fields, not five, yet the source's pattern accepts it (the `.+`
wildcards swallow the extra pipe) — refuting the claimed
"qualifies iff five-field shape" equivalence. -/
theorem idx_pattern_matches_six_fields :
    qualifiesIdxLine ("1|a|b|2020|x|y" : String).data = true ∧
    fiveFieldShapeSpec ("1|a|b|2020|x|y" : String).data = false := by
  decide

/-- C7 (amended): the example line parses to exactly one `FilingEntry`
with cik `"0000123"` and derived path
`"Archives/edgar/data/123/abc.txt"`; a header line without pipes yields
zero entries; every line with the five-field shape qualifies (but the
converse fails: qualifying lines may contain extra pipes inside the
wildcard fields, and such lines raise `TypeError` instead of being
dropped); with a `None` entry filter every qualifying line's entry is
kept (the dict holds exactly one entry per qualifying line whenever the
scan succeeds). -/
theorem idx_scan_behaviour :
    get_filings_dict "0000123|ACME CORP|10-K|2020-01-15|edgar/data/123/abc.txt" none
      = .ok [("0000123",
          [⟨"0000123", "ACME CORP", "10-K", "2020-01-15", "edgar/data/123/abc.txt",
            "Archives/edgar/data/123/abc.txt"⟩])] ∧
    get_filings_dict "CIK Company Name Form Type Date Filed File Name" none = .ok [] ∧
    (∀ l : List Char, fiveFieldShapeSpec l = true → qualifiesIdxLine l = true) ∧
    (∀ (text : String) (d : List (String × List FilingEntry)),
      get_filings_dict text none = .ok d →
      dictTotal d = (qualifyingIdxLines text.data).length) := by
  refine ⟨by decide, by decide, qualifies_of_fiveFieldShape, ?_⟩
  intro text d h
  have := parseIdxEntries_none_count (qualifyingIdxLines text.data) [] d h
  simpa [dictTotal] using this

/-- C7 witness: the shape-implies-qualifies and the keep-all parts of
the scan theorem applied to the concrete example line. -/
theorem idx_scan_behaviour_witness :
    fiveFieldShapeSpec
        ("0000123|ACME CORP|10-K|2020-01-15|edgar/data/123/abc.txt" : String).data
      = true ∧
    qualifiesIdxLine
        ("0000123|ACME CORP|10-K|2020-01-15|edgar/data/123/abc.txt" : String).data
      = true ∧
    dictTotal [("0000123",
        [⟨"0000123", "ACME CORP", "10-K", "2020-01-15", "edgar/data/123/abc.txt",
          "Archives/edgar/data/123/abc.txt"⟩])]
      = (qualifyingIdxLines
          ("0000123|ACME CORP|10-K|2020-01-15|edgar/data/123/abc.txt" : String).data).length :=
  ⟨by decide,
    idx_scan_behaviour.2.2.1 _ (by decide),
    idx_scan_behaviour.2.2.2 _ _ (by decide)⟩

/-- C8: the bulk-archive lookup tries the endings
`nc, corr04, corr03, corr02, corr01` in that fixed order and picks the
first variant present among the extracted files: a present `.nc` always
wins; `.corr01` is used exactly when the four earlier variants are
absent; when no variant is present the lookup yields nothing and the
link is skipped without an error; and any successful lookup is the
first present candidate in priority order. -/
theorem move_to_dest_extension_fallback :
    (∀ (extracted : List String) (acc : String),
      extracted.contains (accessionRoot acc ++ "." ++ "nc") = true →
      resolveExtracted extracted acc = some (accessionRoot acc ++ "." ++ "nc")) ∧
    (∀ (extracted : List String) (acc : String),
      extracted.contains (accessionRoot acc ++ "." ++ "nc") = false →
      extracted.contains (accessionRoot acc ++ "." ++ "corr04") = false →
      extracted.contains (accessionRoot acc ++ "." ++ "corr03") = false →
      extracted.contains (accessionRoot acc ++ "." ++ "corr02") = false →
      extracted.contains (accessionRoot acc ++ "." ++ "corr01") = true →
      resolveExtracted extracted acc = some (accessionRoot acc ++ "." ++ "corr01")) ∧
    (∀ (extracted : List String) (acc : String),
      (∀ e ∈ possible_endings, extracted.contains (accessionRoot acc ++ "." ++ e) = false) →
      resolveExtracted extracted acc = none) ∧
    (∀ (dirFmt fileFmt : String → String) (xd dir link : String)
        (extracted : List String),
      resolveExtracted extracted (get_accession_number link) = none →
      moveJobs dirFmt fileFmt xd dir [link] extracted = []) ∧
    (∀ (extracted : List String) (acc r : String),
      resolveExtracted extracted acc = some r →
      ∃ e l1 l2, possible_endings = l1 ++ e :: l2 ∧ r = accessionRoot acc ++ "." ++ e ∧
        extracted.contains r = true ∧
        ∀ e2 ∈ l1, extracted.contains (accessionRoot acc ++ "." ++ e2) = false) := by
  refine ⟨?_, ?_, ?_, ?_, ?_⟩
  · intro extracted acc h
    simp only [List.contains, List.elem_eq_mem, decide_eq_true_eq] at h
    simp [resolveExtracted, possible_endings, List.find?, h]
  · intro extracted acc h1 h2 h3 h4 h5
    simp only [List.contains, List.elem_eq_mem, decide_eq_true_eq,
      decide_eq_false_iff_not] at h1 h2 h3 h4 h5
    simp [resolveExtracted, possible_endings, List.find?, h1, h2, h3, h4, h5]
  · intro extracted acc h
    have h1 := h "nc" (by simp [possible_endings])
    have h2 := h "corr04" (by simp [possible_endings])
    have h3 := h "corr03" (by simp [possible_endings])
    have h4 := h "corr02" (by simp [possible_endings])
    have h5 := h "corr01" (by simp [possible_endings])
    simp only [List.contains, List.elem_eq_mem, decide_eq_false_iff_not] at h1 h2 h3 h4 h5
    simp [resolveExtracted, possible_endings, List.find?, h1, h2, h3, h4, h5]
  · intro dirFmt fileFmt xd dir link extracted h
    simp [moveJobs, h]
  · intro extracted acc r h
    unfold resolveExtracted at h
    rw [Option.map_eq_some'] at h
    obtain ⟨e, hfind, rfl⟩ := h
    obtain ⟨hq, l1, l2, hsplit, hfail⟩ := find?_eq_some_split _ possible_endings e hfind
    exact ⟨e, l1, l2, hsplit, rfl, hq, fun e2 h2 => hfail e2 h2⟩

/-- C8 witness: the fallback theorem applied to the concrete extracted
sets of the specification's scenarios. -/
theorem move_to_dest_extension_fallback_witness :
    resolveExtracted ["0000123-20-000001.nc"] "0000123-20-000001.txt"
      = some (accessionRoot "0000123-20-000001.txt" ++ "." ++ "nc") ∧
    resolveExtracted ["0000123-20-000001.corr01"] "0000123-20-000001.txt"
      = some (accessionRoot "0000123-20-000001.txt" ++ "." ++ "corr01") ∧
    moveJobs id id "tmpdir" "destdir" ["edgar/data/123/0000999-20-000009.txt"] [] = [] :=
  ⟨move_to_dest_extension_fallback.1 _ _ (by decide),
    move_to_dest_extension_fallback.2.1 _ _ (by decide) (by decide) (by decide)
      (by decide) (by decide),
    move_to_dest_extension_fallback.2.2.2.1 _ _ _ _ _ _ (by decide)⟩

/-- C9 counterexample: when unzipping raises, `save_filings` with
`download_all=True` terminates (with the error) leaving the temporary
extraction directory on disk — there is no `try`/`finally` around the
body, so cleanup is skipped on the error path. -/
theorem save_filings_bulk_leak :
    (save_filings_bulk [] false true).1 = .error .unzipErr ∧
    chooseTempDir [] ∈ (save_filings_bulk [] false true).2 := by
  decide

/-- C9 (amended): the temporary extraction directory is removed when the
call completes successfully (the final directory list is exactly the
original one), but when unzipping or moving raises, the error propagates
and the temporary directory is left on disk. -/
theorem save_filings_bulk_cleanup :
    ∀ (existing : List String) (u m : Bool), chooseTempDir existing ∉ existing →
      (u = true → m = true →
        (save_filings_bulk existing u m).1 = .ok () ∧
        (save_filings_bulk existing u m).2 = existing ∧
        chooseTempDir existing ∉ (save_filings_bulk existing u m).2) ∧
      ((u = false ∨ m = false) →
        (∃ err, (save_filings_bulk existing u m).1 = .error err) ∧
        chooseTempDir existing ∈ (save_filings_bulk existing u m).2) := by
  intro existing u m hfresh
  constructor
  · rintro rfl rfl
    have hstep : save_filings_bulk existing true true
        = (.ok (), (existing ++ [chooseTempDir existing]).erase (chooseTempDir existing)) :=
      rfl
    rw [hstep, List.erase_append_right _ hfresh]
    exact ⟨rfl, by simp, by simp [hfresh]⟩
  · intro hor
    have hmem : chooseTempDir existing ∈ existing ++ [chooseTempDir existing] := by
      simp
    rcases hor with rfl | rfl
    · have hstep : save_filings_bulk existing false m
          = (.error .unzipErr, existing ++ [chooseTempDir existing]) := rfl
      rw [hstep]
      exact ⟨⟨.unzipErr, rfl⟩, hmem⟩
    · cases u with
      | false =>
        have hstep : save_filings_bulk existing false false
            = (.error .unzipErr, existing ++ [chooseTempDir existing]) := rfl
        rw [hstep]
        exact ⟨⟨.unzipErr, rfl⟩, hmem⟩
      | true =>
        have hstep : save_filings_bulk existing true false
            = (.error .moveErr, existing ++ [chooseTempDir existing]) := rfl
        rw [hstep]
        exact ⟨⟨.moveErr, rfl⟩, hmem⟩

/-- C9 witness: the cleanup theorem applied concretely — a successful
run starting from an empty directory list removes the temp directory,
and a failing unzip leaves it. -/
theorem save_filings_bulk_cleanup_witness :
    chooseTempDir [] ∉ ([] : List String) ∧
    (save_filings_bulk [] true true).1 = .ok () ∧
    (save_filings_bulk [] true true).2 = [] ∧
    chooseTempDir [] ∈ (save_filings_bulk [] false false).2 :=
  ⟨by decide,
    ((save_filings_bulk_cleanup [] true true (by decide)).1 rfl rfl).1,
    ((save_filings_bulk_cleanup [] true true (by decide)).1 rfl rfl).2.1,
    ((save_filings_bulk_cleanup [] false false (by decide)).2 (Or.inl rfl)).2⟩

/-- C10: every boundary-filtered quarter triple `_recompute` emits
carries a predicate that subscripts its argument with the string key
`'date_filed'` and calls `date(...)` with one argument; applied to any
`FilingEntry` namedtuple it therefore raises `TypeError` instead of
returning a boolean, so it can never accept or reject an entry. -/
theorem boundary_predicates_raise_typeError :
    ∀ (s e : Date) (bp : Nat) (y q : Nat) (p : QPred),
      (y, q, p) ∈ (recompute s e bp).1 → p ≠ QPred.acceptAll →
      ∀ fe : FilingEntry, evalQPred p s e (PyVal.entry fe) = .error PyErr.typeError := by
  intro s e bp y q p hmem hne fe
  cases p with
  | acceptAll => exact absurd rfl hne
  | geStart => rfl
  | leEnd => rfl

/-- C10 witness: the predicate theorem applied to the `<= end_date`
triple emitted for the range 2020-01-01 .. 2020-02-15 and a concrete
entry. -/
theorem boundary_predicates_raise_typeError_witness :
    (2020, 1, QPred.leEnd) ∈ (recompute ⟨2020, 1, 1⟩ ⟨2020, 2, 15⟩ 30).1 ∧
    evalQPred QPred.leEnd ⟨2020, 1, 1⟩ ⟨2020, 2, 15⟩
        (PyVal.entry ⟨"0000123", "ACME CORP", "10-K", "2020-01-15",
          "edgar/data/123/abc.txt", "Archives/edgar/data/123/abc.txt"⟩)
      = .error PyErr.typeError :=
  ⟨by decide,
    boundary_predicates_raise_typeError ⟨2020, 1, 1⟩ ⟨2020, 2, 15⟩ 30 2020 1 QPred.leEnd
      (by decide) (by decide) _⟩

end SecEdgar
